import Mathlib

/-!
Shallow embedding of the battleships game core (`battleships.py`):
the `Direction` enum, the `Ship` placement descriptor, the `Board`
(ship set, hit and miss shot history, placement validation, shot
resolution, game-over query), the `ship_to_place` fleet-completion
query of the interactive board, and the `Game` turn engine
(player shot, AI countershot, winner evaluation).

Python integers are modelled as `Int` (coordinates may go negative via
ship extents); Python lists as `List`; a Python method that can raise
(`list.remove`) returns `Option`.  Randomness (the AI's coordinate
choice) and display input are modelled as explicit parameters.
-/

namespace Battleships

/-- The compass enum `Direction` from the source. -/
inductive Direction where
  | north
  | east
  | south
  | west
deriving DecidableEq

/-- `Direction.next`: the next point of the compass, cyclically N→E→S→W→N. -/
def Direction.next : Direction → Direction
  | .north => .east
  | .east => .south
  | .south => .west
  | .west => .north

/-- The `Ship` object: origin cell, direction, length. -/
structure Ship where
  location : Int × Int
  direction : Direction
  length : Nat
deriving DecidableEq

/-- `Ship.coordinate_list`: the list of coordinates the ship is located over,
one branch per compass direction, mirroring the source's four comprehensions. -/
def Ship.coordinate_list (s : Ship) : List (Int × Int) :=
  match s.direction with
  | .north => (List.range s.length).map (fun (i : Nat) => (s.location.1, s.location.2 - (i : Int)))
  | .east => (List.range s.length).map (fun (i : Nat) => (s.location.1 + (i : Int), s.location.2))
  | .south => (List.range s.length).map (fun (i : Nat) => (s.location.1, s.location.2 + (i : Int)))
  | .west => (List.range s.length).map (fun (i : Nat) => (s.location.1 - (i : Int), s.location.2))

/-- The `Board` state: size, fleet spec, placed ships, and shot history. -/
structure Board where
  size : Nat
  ship_sizes : List Nat
  ships_list : List Ship
  hits_list : List (Int × Int)
  misses_list : List (Int × Int)
deriving DecidableEq

/-- `Board.__init__`: a fresh board with the given size and fleet spec and
empty ship and shot lists. -/
def Board.init (size : Nat) (ship_sizes : List Nat) : Board :=
  ⟨size, ship_sizes, [], [], []⟩

/-- `Board.ships_overlap`: whether two ships share a coordinate (the source's
double loop comparing every coordinate pair). -/
def ships_overlap (ship1 ship2 : Ship) : Bool :=
  ship1.coordinate_list.any (fun c => decide (c ∈ ship2.coordinate_list))

/-- `Board.is_valid`: every coordinate of the candidate ship is in bounds and
the ship overlaps no already-placed ship. -/
def Board.is_valid (b : Board) (ship : Ship) : Bool :=
  ship.coordinate_list.all (fun c =>
    decide (0 ≤ c.1 ∧ c.1 < (b.size : Int) ∧ 0 ≤ c.2 ∧ c.2 < (b.size : Int))) &&
  b.ships_list.all (fun otherShip => !ships_overlap ship otherShip)

/-- `Board.add_ship`: append the ship when `is_valid` holds and report success. -/
def Board.add_ship (b : Board) (ship : Ship) : Board × Bool :=
  if b.is_valid ship then ({ b with ships_list := b.ships_list ++ [ship] }, true)
  else (b, false)

/-- Python `list.remove`: delete the first occurrence of `x`, or fail
(`ValueError`, modelled as `none`) when `x` is absent. -/
def list_remove {α : Type} [DecidableEq α] : List α → α → Option (List α)
  | [], _ => none
  | a :: as, x => if a = x then some as else (list_remove as x).map (fun l => a :: l)

/-- `Board.remove_ship`: `self.ships_list.remove(ship)` — raises (modelled as
`none`) when the ship is not present. -/
def Board.remove_ship (b : Board) (ship : Ship) : Option Board :=
  (list_remove b.ships_list ship).map (fun l => { b with ships_list := l })

/-- `Board.valid_target`: the coordinates are within the board and the shot
has not previously been taken (not in `misses_list + hits_list`). -/
def Board.valid_target (b : Board) (x y : Int) : Bool :=
  decide (0 ≤ x ∧ x < (b.size : Int) ∧ 0 ≤ y ∧ y < (b.size : Int)) &&
  !decide ((x, y) ∈ b.misses_list ++ b.hits_list)

/-- `Board.shoot`: reject invalid targets; otherwise append the coordinate to
`hits_list` when some placed ship covers it, else to `misses_list`. -/
def Board.shoot (b : Board) (x y : Int) : Board × Bool :=
  if b.valid_target x y then
    if b.ships_list.any (fun ship => decide ((x, y) ∈ ship.coordinate_list)) then
      ({ b with hits_list := b.hits_list ++ [(x, y)] }, true)
    else
      ({ b with misses_list := b.misses_list ++ [(x, y)] }, true)
  else (b, false)

/-- `Board.gameover`: all coordinates of all placed ships appear in `hits_list`. -/
def Board.gameover (b : Board) : Bool :=
  b.ships_list.all (fun ship =>
    ship.coordinate_list.all (fun coordinate => decide (coordinate ∈ b.hits_list)))

/-- Python `itertools.zip_longest` on two lists, padding the shorter with `none`. -/
def zipLongest {α β : Type} : List α → List β → List (Option α × Option β)
  | [], bs => bs.map (fun b => (none, some b))
  | a :: as, [] => (some a, none) :: zipLongest as []
  | a :: as, b :: bs => (some a, some b) :: zipLongest as bs

/-- `PlayerBoard.ship_to_place`: sort the placed ship lengths and the fleet
spec, and return the first spec entry at which they differ under
`zip_longest` (the source's early `return to_place`), if any.  `PlayerBoard`
adds only the display handle to `Board`, so the method is modelled on `Board`. -/
def Board.ship_to_place (b : Board) : Option Nat :=
  let placed_sizes := List.insertionSort (fun a b => a ≤ b) (b.ships_list.map Ship.length)
  let sizes := List.insertionSort (fun a b => a ≤ b) b.ship_sizes
  (zipLongest placed_sizes sizes).findSome?
    (fun p => if p.1 ≠ p.2 then p.2 else none)

/-- Which victory message `Game.gameover` prints. -/
inductive Winner where
  | player
  | opponent
deriving DecidableEq

/-- The `Game` turn engine's state: the two boards (the display collaborator
is out of scope). -/
structure Game where
  board_size : Nat
  ai_board : Board
  player_board : Board
deriving DecidableEq

/-- `Game.player_shot`: with input coordinates (from the display, `none` when
no click), shoot the AI board when the target is valid and report whether
the turn was consumed. -/
def Game.player_shot (g : Game) (input : Option (Int × Int)) : Game × Bool :=
  match input with
  | none => (g, false)
  | some (x, y) =>
    if g.ai_board.valid_target x y then
      ({ g with ai_board := (g.ai_board.shoot x y).1 }, true)
    else (g, false)

/-- `Game.ai_shot` after its random rejection loop has chosen coordinates
`(x, y)` (the loop guarantees `valid_target`): shoot the player's board. -/
def Game.ai_shot (g : Game) (x y : Int) : Game :=
  { g with player_board := (g.player_board.shoot x y).1 }

/-- One iteration body of `Game.play`: `if self.player_shot(): self.ai_shot()`,
with the display input and the AI's chosen coordinates made explicit. -/
def Game.turn (g : Game) (input : Option (Int × Int)) (ai : Int × Int) : Game :=
  if (g.player_shot input).2 then Game.ai_shot (g.player_shot input).1 ai.1 ai.2
  else (g.player_shot input).1

/-- `Game.gameover`: the termination check — AI board first (player wins),
then the player board (opponent wins); paired with the printed winner. -/
def Game.gameover_result (g : Game) : Bool × Option Winner :=
  if g.ai_board.gameover then (true, some Winner.player)
  else if g.player_board.gameover then (true, some Winner.opponent)
  else (false, none)

/-- The board invariants of the specification: every hit lies on some placed
ship, every miss lies on no placed ship, hits and misses are disjoint, and
neither list repeats a coordinate. -/
def Board.wf (b : Board) : Prop :=
  (∀ c ∈ b.hits_list, ∃ s ∈ b.ships_list, c ∈ s.coordinate_list) ∧
  (∀ c ∈ b.misses_list, ∀ s ∈ b.ships_list, c ∉ s.coordinate_list) ∧
  (∀ c ∈ b.hits_list, c ∉ b.misses_list) ∧
  b.hits_list.Nodup ∧
  b.misses_list.Nodup

instance (b : Board) : Decidable b.wf := by
  unfold Board.wf
  infer_instance

/-- Unit step taken per cell index in each compass direction, as
`(column delta, row delta)`; used to state the shape of `coordinate_list`. -/
def dirStep : Direction → Int × Int
  | .north => (0, -1)
  | .east => (1, 0)
  | .south => (0, 1)
  | .west => (-1, 0)

/-- The first entry of the second sorted list at which the two lists differ
position-by-position, the second list padded view of the source's
`zip_longest` early return. -/
def firstMismatch : List Nat → List Nat → Option Nat
  | [], [] => none
  | [], t :: _ => some t
  | _ :: _, [] => none
  | p :: ps, t :: ts => if p = t then firstMismatch ps ts else some t

/-! ### Concrete states used by witnesses and counterexamples -/

/-- A length-2 ship facing east from the origin, covering (0,0) and (1,0). -/
def shipLen2East : Ship := ⟨(0, 0), Direction.east, 2⟩

/-- A board whose single length-2 ship has been hit on one of its two cells. -/
def boardHalfHit : Board := ⟨10, [2], [shipLen2East], [(0, 0)], []⟩

/-- A board whose single length-2 ship has been hit on both cells. -/
def boardFullHit : Board := ⟨10, [2], [shipLen2East], [(0, 0), (1, 0)], []⟩

/-- A length-1 ship at the origin. -/
def unitShip : Ship := ⟨(0, 0), Direction.north, 1⟩

/-- A fresh 2-by-2 board with fleet spec [1] and nothing placed or shot. -/
def freshSmallBoard : Board := Board.init 2 [1]

/-- A 2-by-2 board with one recorded miss at (0,0) and no ships. -/
def missOnlyBoard : Board := ⟨2, [1], [], [], [(0, 0)]⟩

/-- A 2-by-2 board holding the single unit ship, not yet shot at. -/
def oneShipBoard : Board := ⟨2, [1], [unitShip], [], []⟩

/-- A game one player hit away from termination on either board. -/
def endgameGame : Game := ⟨2, oneShipBoard, oneShipBoard⟩

/-- A length-3 ship facing east from (2,3), the spec's placement scenario. -/
def shipLen3East : Ship := ⟨(2, 3), Direction.east, 3⟩

/-- A fresh board with the default size and fleet spec of the source. -/
def defaultBoard : Board := Board.init 10 [6, 4, 3, 3, 2]

/-! ### Helper lemmas -/

lemma valid_target_iff (b : Board) (x y : Int) :
    b.valid_target x y = true ↔
      (0 ≤ x ∧ x < (b.size : Int) ∧ 0 ≤ y ∧ y < (b.size : Int)) ∧
        (x, y) ∉ b.misses_list ∧ (x, y) ∉ b.hits_list := by
  simp [Board.valid_target, not_or]

lemma any_ship_mem_iff (b : Board) (x y : Int) :
    (b.ships_list.any fun ship => decide ((x, y) ∈ ship.coordinate_list)) = true ↔
      ∃ s ∈ b.ships_list, (x, y) ∈ s.coordinate_list := by
  simp

lemma shoot_eq (b : Board) (x y : Int) :
    b.shoot x y =
      if b.valid_target x y = true then
        if ∃ s ∈ b.ships_list, (x, y) ∈ s.coordinate_list then
          ({ b with hits_list := b.hits_list ++ [(x, y)] }, true)
        else
          ({ b with misses_list := b.misses_list ++ [(x, y)] }, true)
      else (b, false) := by
  unfold Board.shoot
  by_cases hv : b.valid_target x y = true
  · rw [if_pos hv, if_pos hv]
    by_cases hs : ∃ s ∈ b.ships_list, (x, y) ∈ s.coordinate_list
    · rw [if_pos ((any_ship_mem_iff b x y).mpr hs), if_pos hs]
    · have hf : (b.ships_list.any fun ship => decide ((x, y) ∈ ship.coordinate_list)) = false := by
        rw [Bool.eq_false_iff]
        exact fun hh => hs ((any_ship_mem_iff b x y).mp hh)
      rw [hf, if_neg hs]
      simp
  · rw [if_neg hv, if_neg hv]

lemma valid_target_of_mem_false (b : Board) (x y : Int)
    (h : (x, y) ∈ b.misses_list ++ b.hits_list) : b.valid_target x y = false := by
  rcases List.mem_append.mp h with h | h <;>
    simp [Board.valid_target, h]

lemma shoot_invalid (b : Board) (x y : Int) (h : b.valid_target x y = false) :
    b.shoot x y = (b, false) := by
  unfold Board.shoot
  rw [if_neg (by simp [h])]

/-! ### Claims -/

/-- Claim C10: a freshly constructed board has no ships, no hits and no
misses, and its game-over query is vacuously true. -/
theorem init_gameover (n : Nat) (sizes : List Nat) :
    (Board.init n sizes).ships_list = [] ∧
      (Board.init n sizes).hits_list = [] ∧
      (Board.init n sizes).misses_list = [] ∧
      (Board.init n sizes).gameover = true :=
  ⟨rfl, rfl, rfl, rfl⟩

/-- Claim C4: `gameover` is true exactly when every coordinate of every
placed ship is present in `hits_list`; concretely, a board whose single
length-2 ship occupies (0,0) and (1,0) is not game-over with only (0,0)
hit, and is game-over with both cells hit. -/
theorem gameover_spec (b : Board) :
    (b.gameover = true ↔
      ∀ s ∈ b.ships_list, ∀ c ∈ s.coordinate_list, c ∈ b.hits_list) ∧
    shipLen2East.coordinate_list = [(0, 0), (1, 0)] ∧
    boardHalfHit.gameover = false ∧
    boardFullHit.gameover = true := by
  refine ⟨?_, by decide, by decide, by decide⟩
  simp [Board.gameover]

/-- Claim C7: the termination check reports the player as winner exactly when
the AI board is all-hit, and the opponent as winner exactly when the player
board is all-hit and the AI board is not; when both are all-hit the player
wins (the AI board is checked first). -/
theorem game_gameover_spec (g : Game) :
    (g.gameover_result.1 = (g.ai_board.gameover || g.player_board.gameover)) ∧
    (g.gameover_result.2 = some Winner.player ↔ g.ai_board.gameover = true) ∧
    (g.gameover_result.2 = some Winner.opponent ↔
      g.ai_board.gameover = false ∧ g.player_board.gameover = true) := by
  unfold Game.gameover_result
  cases hA : g.ai_board.gameover <;> cases hP : g.player_board.gameover <;> simp

/-- Claim C8 counterexample: removing a ship that is not on the board does
not return normally with the board unchanged — `list.remove` raises
(modelled as `none`). -/
theorem remove_ship_cex :
    unitShip ∉ freshSmallBoard.ships_list ∧
      freshSmallBoard.remove_ship unitShip = none ∧
      freshSmallBoard.remove_ship unitShip ≠ some freshSmallBoard := by
  decide

lemma list_remove_eq {α : Type} [DecidableEq α] (l : List α) (x : α) :
    list_remove l x = if x ∈ l then some (l.erase x) else none := by
  induction l with
  | nil => rfl
  | cons a as ih =>
    unfold list_remove
    by_cases hax : a = x
    · subst hax
      rw [if_pos rfl, if_pos (List.mem_cons_self a as), List.erase_cons_head]
    · rw [if_neg hax, ih]
      by_cases hx : x ∈ as
      · rw [if_pos hx, if_pos (List.mem_cons_of_mem a hx),
          List.erase_cons_tail (by simpa using hax)]
        rfl
      · rw [if_neg hx, if_neg (by simp [hx, Ne.symm hax])]
        rfl

/-- Claim C8 (amended): `remove_ship` on an absent ship signals an error
(Python `ValueError`, modelled as `none`); on a present ship it removes the
first occurrence of that ship from `ships_list`. -/
theorem remove_ship_spec (b : Board) (s : Ship) :
    b.remove_ship s =
      if s ∈ b.ships_list then
        some { b with ships_list := b.ships_list.erase s }
      else none := by
  unfold Board.remove_ship
  rw [list_remove_eq]
  by_cases h : s ∈ b.ships_list
  · rw [if_pos h, if_pos h]
    rfl
  · rw [if_neg h, if_neg h]
    rfl

/-- Claim C1: an invalid target makes `shoot` return false with the board
(ships, hits and misses) unchanged; a valid target makes it return true,
appending the coordinate to `hits_list` when some placed ship covers it and
to `misses_list` otherwise; and a second shot at the same coordinate
returns false and leaves the board unchanged. -/
theorem shoot_spec (b : Board) (x y : Int) :
    (b.shoot x y =
      if b.valid_target x y = true then
        if ∃ s ∈ b.ships_list, (x, y) ∈ s.coordinate_list then
          ({ b with hits_list := b.hits_list ++ [(x, y)] }, true)
        else
          ({ b with misses_list := b.misses_list ++ [(x, y)] }, true)
      else (b, false)) ∧
    ((b.shoot x y).1.shoot x y = ((b.shoot x y).1, false)) := by
  refine ⟨shoot_eq b x y, ?_⟩
  by_cases hv : b.valid_target x y = true
  · rw [shoot_eq b x y, if_pos hv]
    by_cases hs : ∃ s ∈ b.ships_list, (x, y) ∈ s.coordinate_list
    · rw [if_pos hs]
      exact shoot_invalid _ x y
        (valid_target_of_mem_false _ x y (by simp))
    · rw [if_neg hs]
      exact shoot_invalid _ x y
        (valid_target_of_mem_false _ x y (by simp))
  · have h0 : b.shoot x y = (b, false) :=
      shoot_invalid b x y (Bool.eq_false_iff.mpr hv)
    rw [h0]
    exact h0

lemma is_valid_iff (b : Board) (ship : Ship) :
    b.is_valid ship = true ↔
      (∀ c ∈ ship.coordinate_list,
        0 ≤ c.1 ∧ c.1 < (b.size : Int) ∧ 0 ≤ c.2 ∧ c.2 < (b.size : Int)) ∧
      (∀ other ∈ b.ships_list, ∀ c ∈ ship.coordinate_list,
        c ∉ other.coordinate_list) := by
  simp [Board.is_valid, ships_overlap]

/-- Claim C2: `add_ship` appends the ship and returns true exactly when
every occupied cell is within the board and no occupied cell lies on an
already-placed ship; otherwise it returns false with `ships_list`
unchanged.  The validity check `is_valid` is embedded as a pure function of
the board, so it cannot mutate it. -/
theorem add_ship_spec (b : Board) (ship : Ship) :
    b.add_ship ship =
      if ((∀ c ∈ ship.coordinate_list,
            0 ≤ c.1 ∧ c.1 < (b.size : Int) ∧ 0 ≤ c.2 ∧ c.2 < (b.size : Int)) ∧
          (∀ other ∈ b.ships_list, ∀ c ∈ ship.coordinate_list,
            c ∉ other.coordinate_list))
      then ({ b with ships_list := b.ships_list ++ [ship] }, true)
      else (b, false) := by
  unfold Board.add_ship
  by_cases hP : (∀ c ∈ ship.coordinate_list,
      0 ≤ c.1 ∧ c.1 < (b.size : Int) ∧ 0 ≤ c.2 ∧ c.2 < (b.size : Int)) ∧
      (∀ other ∈ b.ships_list, ∀ c ∈ ship.coordinate_list,
        c ∉ other.coordinate_list)
  · rw [if_pos ((is_valid_iff b ship).mpr hP), if_pos hP]
  · have hf : b.is_valid ship = false := by
      rw [Bool.eq_false_iff]
      exact fun hh => hP ((is_valid_iff b ship).mp hh)
    rw [hf, if_neg hP]
    simp

/-- Claim C3 counterexample: a board satisfying all the invariants (a
recorded miss at (0,0) and no ships) stops satisfying them after a
successful `add_ship` placing a ship over the missed cell. -/
theorem wf_add_ship_cex :
    missOnlyBoard.wf ∧
      (missOnlyBoard.add_ship unitShip).2 = true ∧
      ¬ (missOnlyBoard.add_ship unitShip).1.wf := by
  decide

/-- Claim C3 (amended): from a board satisfying the invariants, every
`shoot` preserves them, and `add_ship` preserves them whenever no occupied
cell of the candidate ship lies in `misses_list` (in particular during the
placement phase, before any shot); `add_ship` does not check `misses_list`,
so adding a ship over a previously missed cell can break the miss
invariant. -/
theorem wf_preserved (b : Board) (hb : b.wf) :
    (∀ x y : Int, ((b.shoot x y).1).wf) ∧
    (∀ s : Ship, (∀ c ∈ s.coordinate_list, c ∉ b.misses_list) →
      ((b.add_ship s).1).wf) := by
  obtain ⟨h1, h2, h3, h4, h5⟩ := hb
  constructor
  · intro x y
    by_cases hv : b.valid_target x y = true
    · obtain ⟨hbd, hm, hh⟩ := (valid_target_iff b x y).mp hv
      by_cases hs : ∃ s ∈ b.ships_list, (x, y) ∈ s.coordinate_list
      · have hrw : (b.shoot x y).1 = { b with hits_list := b.hits_list ++ [(x, y)] } := by
          rw [shoot_eq b x y, if_pos hv, if_pos hs]

        rw [hrw]
        refine ⟨?_, h2, ?_, ?_, h5⟩
        · intro c hc
          rcases List.mem_append.mp hc with hc | hc
          · exact h1 c hc
          · rw [List.mem_singleton] at hc
            subst hc
            exact hs
        · intro c hc
          rcases List.mem_append.mp hc with hc | hc
          · exact h3 c hc
          · rw [List.mem_singleton] at hc
            subst hc
            exact hm
        · rw [List.nodup_append]
          refine ⟨h4, List.nodup_singleton _, ?_⟩
          intro a ha hmem
          rw [List.mem_singleton] at hmem
          subst hmem
          exact hh ha
      · have hrw : (b.shoot x y).1 = { b with misses_list := b.misses_list ++ [(x, y)] } := by
          rw [shoot_eq b x y, if_pos hv, if_neg hs]
        rw [hrw]
        refine ⟨h1, ?_, ?_, h4, ?_⟩
        · intro c hc s hsl
          rcases List.mem_append.mp hc with hc | hc
          · exact h2 c hc s hsl
          · rw [List.mem_singleton] at hc
            subst hc
            exact fun hcs => hs ⟨s, hsl, hcs⟩
        · intro c hc
          rw [List.mem_append, List.mem_singleton]
          rintro (hc2 | rfl)
          · exact h3 c hc hc2
          · exact hh hc
        · rw [List.nodup_append]
          refine ⟨h5, List.nodup_singleton _, ?_⟩
          intro a ha hmem
          rw [List.mem_singleton] at hmem
          subst hmem
          exact hm ha
    · have hrw : (b.shoot x y).1 = b := by
        rw [shoot_invalid b x y (Bool.eq_false_iff.mpr hv)]
      rw [hrw]
      exact ⟨h1, h2, h3, h4, h5⟩
  · intro s hms
    by_cases hvs : b.is_valid s = true
    · have hrw : (b.add_ship s).1 = { b with ships_list := b.ships_list ++ [s] } := by
        unfold Board.add_ship
        rw [if_pos hvs]
      rw [hrw]
      refine ⟨?_, ?_, h3, h4, h5⟩
      · intro c hc
        obtain ⟨sh, hsh, hcs⟩ := h1 c hc
        exact ⟨sh, List.mem_append_left _ hsh, hcs⟩
      · intro c hc sh hsh
        rcases List.mem_append.mp hsh with hsh | hsh
        · exact h2 c hc sh hsh
        · rw [List.mem_singleton] at hsh
          subst hsh
          exact fun hcs => hms c hcs hc
    · have hrw : (b.add_ship s).1 = b := by
        unfold Board.add_ship
        rw [if_neg (by simp [hvs])]
      rw [hrw]
      exact ⟨h1, h2, h3, h4, h5⟩

/-- Claim C3 witness: the amended preservation theorem applied to the fresh
small board, one shot at (0,0) and one placement of the unit ship. -/
theorem wf_preserved_witness :
    freshSmallBoard.wf ∧
      ((freshSmallBoard.shoot 0 0).1).wf ∧
      ((freshSmallBoard.add_ship unitShip).1).wf :=
  ⟨by decide, (wf_preserved freshSmallBoard (by decide)).1 0 0,
    (wf_preserved freshSmallBoard (by decide)).2 unitShip (by decide)⟩

/-- Claim C5: for a ship of length at least 1, `coordinate_list` has exactly
`length` entries, starts at the origin, and its i-th entry is the origin
displaced i unit steps in the facing direction (north decrements the row,
east increments the column, south increments the row, west decrements the
column); a length-1 ship yields just the origin. -/
theorem coordinate_list_spec (s : Ship) (h : 1 ≤ s.length) :
    s.coordinate_list.length = s.length ∧
    s.coordinate_list[0]? = some s.location ∧
    (∀ i : Nat, i < s.length →
      s.coordinate_list[i]? =
        some (s.location.1 + (i : Int) * (dirStep s.direction).1,
              s.location.2 + (i : Int) * (dirStep s.direction).2)) ∧
    (s.length = 1 → s.coordinate_list = [s.location]) := by
  obtain ⟨⟨x, y⟩, d, L⟩ := s
  have hget : ∀ i : Nat, i < L →
      (Ship.coordinate_list ⟨(x, y), d, L⟩)[i]? =
        some (x + (i : Int) * (dirStep d).1, y + (i : Int) * (dirStep d).2) := by
    intro i hi
    cases d <;>
      · simp only [Ship.coordinate_list, List.getElem?_map, List.getElem?_range hi,
          dirStep, Option.map, Option.some.injEq, Prod.mk.injEq]
        constructor <;> ring
  refine ⟨?_, ?_, hget, ?_⟩
  · cases d <;> simp only [Ship.coordinate_list, List.length_map, List.length_range]
  · have h0 := hget 0 h
    simpa using h0
  · intro h1
    have hL : L = 1 := h1
    subst hL
    cases d <;> simp [Ship.coordinate_list, List.range_succ]

/-- Claim C5 witness: the coordinate-list theorem applied to the length-3
east-facing ship at (2,3) of the specification scenario. -/
theorem coordinate_list_spec_witness :
    1 ≤ shipLen3East.length ∧
      shipLen3East.coordinate_list.length = shipLen3East.length ∧
      shipLen3East.coordinate_list = [(2, 3), (3, 3), (4, 3)] :=
  ⟨by decide, (coordinate_list_spec shipLen3East (by decide)).1, by decide⟩

lemma player_shot_snd_false (g : Game) (input : Option (Int × Int))
    (h : (g.player_shot input).2 = false) : (g.player_shot input).1 = g := by
  cases input with
  | none => rfl
  | some xy =>
    obtain ⟨x, y⟩ := xy
    simp only [Game.player_shot] at h ⊢
    by_cases hv : g.ai_board.valid_target x y = true
    · rw [if_pos hv] at h
      simp at h
    · rw [if_neg hv]

lemma player_shot_fst_player_board (g : Game) (input : Option (Int × Int)) :
    ((g.player_shot input).1).player_board = g.player_board := by
  cases input with
  | none => rfl
  | some xy =>
    obtain ⟨x, y⟩ := xy
    simp only [Game.player_shot]
    by_cases hv : g.ai_board.valid_target x y = true
    · rw [if_pos hv]
    · rw [if_neg hv]

lemma shoot_counts (b : Board) (x y : Int) (h : b.valid_target x y = true) :
    ((b.shoot x y).1).hits_list.length + ((b.shoot x y).1).misses_list.length
      = b.hits_list.length + b.misses_list.length + 1 := by
  rw [shoot_eq b x y, if_pos h]
  by_cases hs : ∃ s ∈ b.ships_list, (x, y) ∈ s.coordinate_list
  · rw [if_pos hs]
    simp only [List.length_append, List.length_singleton]
    omega
  · rw [if_neg hs]
    simp only [List.length_append, List.length_singleton]
    omega

/-- Claim C6 counterexample: in the endgame position, a valid player shot
at (0,0) makes the AI board game-over, yet the countershot still fires in
the same turn and changes the player's board. -/
theorem game_turn_terminal_cex :
    endgameGame.player_board.valid_target 1 1 = true ∧
      (endgameGame.player_shot (some (0, 0))).2 = true ∧
      (endgameGame.turn (some (0, 0)) (1, 1)).ai_board.gameover = true ∧
      (endgameGame.turn (some (0, 0)) (1, 1)).player_board ≠ endgameGame.player_board := by
  decide

/-- Claim C6 (amended): a turn fires the countershot exactly when the
player's shot consumed the turn — an invalid player shot leaves the whole
game unchanged and triggers no countershot, while a valid player shot is
always followed by exactly one shot landing on the player's board, even
when the player's shot has just made the AI board game-over (the player's
win still takes precedence because `Game.gameover` checks the AI board
first). -/
theorem game_turn_spec (g : Game) (input : Option (Int × Int)) (ai : Int × Int)
    (hai : g.player_board.valid_target ai.1 ai.2 = true) :
    ((g.player_shot input).2 = false → g.turn input ai = g) ∧
    ((g.player_shot input).2 = true →
      (g.turn input ai).player_board.hits_list.length
        + (g.turn input ai).player_board.misses_list.length
        = g.player_board.hits_list.length + g.player_board.misses_list.length + 1) := by
  constructor
  · intro h
    unfold Game.turn
    rw [h, if_neg (by simp)]
    exact player_shot_snd_false g input h
  · intro h
    unfold Game.turn
    rw [h, if_pos rfl]
    unfold Game.ai_shot
    simp only []
    rw [player_shot_fst_player_board g input]
    exact shoot_counts g.player_board ai.1 ai.2 hai

/-- Claim C6 witness: the amended turn theorem applied to the endgame
position with a valid player shot at (0,0) and AI countershot at (1,1). -/
theorem game_turn_spec_witness :
    endgameGame.player_board.valid_target 1 1 = true ∧
      (endgameGame.turn (some (0, 0)) (1, 1)).player_board.hits_list.length
        + (endgameGame.turn (some (0, 0)) (1, 1)).player_board.misses_list.length
        = endgameGame.player_board.hits_list.length
          + endgameGame.player_board.misses_list.length + 1 :=
  ⟨by decide,
    (game_turn_spec endgameGame (some (0, 0)) (1, 1) (by decide)).2 (by decide)⟩

/-- Claim C9 counterexample: on a fresh default board no ship is placed,
the fleet spec's first entry is 6, yet the first length the interactive
controller asks to place is 2 (the smallest), not the spec entry at the
number of placed ships. -/
theorem ship_to_place_cex :
    defaultBoard.ships_list.length = 0 ∧
      defaultBoard.ship_sizes[0]? = some 6 ∧
      defaultBoard.ship_to_place = some 2 ∧
      defaultBoard.ship_to_place ≠ defaultBoard.ship_sizes[defaultBoard.ships_list.length]? := by
  decide

lemma firstMismatch_nil (ps : List Nat) : firstMismatch ps [] = none := by
  cases ps <;> rfl

lemma findSome_zipLongest (ps ts : List Nat) :
    (zipLongest ps ts).findSome? (fun p => if p.1 ≠ p.2 then p.2 else none)
      = firstMismatch ps ts := by
  induction ps generalizing ts with
  | nil =>
    cases ts with
    | nil => rfl
    | cons t ts2 => simp [zipLongest, firstMismatch, List.findSome?_cons]
  | cons p ps ih =>
    cases ts with
    | nil =>
      have h2 := ih []
      rw [firstMismatch_nil] at h2
      rw [firstMismatch_nil]
      show ((some p, (none : Option Nat)) :: zipLongest ps []).findSome?
        (fun q => if q.1 ≠ q.2 then q.2 else none) = none
      rw [List.findSome?_cons]
      simpa using h2
    | cons t ts2 =>
      show ((some p, some t) :: zipLongest ps ts2).findSome?
        (fun q => if q.1 ≠ q.2 then q.2 else none) = firstMismatch (p :: ps) (t :: ts2)
      rw [List.findSome?_cons]
      by_cases hpt : p = t
      · subst hpt
        simpa [firstMismatch] using ih ts2
      · simp [firstMismatch, hpt]

lemma insertionSort_eq_of_perm {l1 l2 : List Nat} (h : l1.Perm l2) :
    List.insertionSort (fun a b => a ≤ b) l1 = List.insertionSort (fun a b => a ≤ b) l2 :=
  List.eq_of_perm_of_sorted
    ((List.perm_insertionSort _ l1).trans (h.trans (List.perm_insertionSort _ l2).symm))
    (List.sorted_insertionSort _ l1)
    (List.sorted_insertionSort _ l2)

/-- Claim C9 (amended): the next length the interactive controller asks to
place is determined by a sorted, multiset-style comparison — sort the
placed lengths and the fleet spec ascending and return the first spec entry
at which they differ — not by the fleet spec's original order; in
particular the result is invariant under permuting the fleet spec. -/
theorem ship_to_place_spec (b : Board) :
    b.ship_to_place =
      firstMismatch (List.insertionSort (fun a b => a ≤ b) (b.ships_list.map Ship.length))
        (List.insertionSort (fun a b => a ≤ b) b.ship_sizes) ∧
    (∀ sizes2 : List Nat, sizes2.Perm b.ship_sizes →
      Board.ship_to_place { b with ship_sizes := sizes2 } = b.ship_to_place) := by
  constructor
  · exact findSome_zipLongest _ _
  · intro sizes2 hperm
    unfold Board.ship_to_place
    rw [insertionSort_eq_of_perm hperm]

/-- Claim C9 witness: permuting the default fleet spec leaves the next
requested length unchanged. -/
theorem ship_to_place_spec_witness :
    ([2, 6, 4, 3, 3] : List Nat).Perm defaultBoard.ship_sizes ∧
      Board.ship_to_place { defaultBoard with ship_sizes := [2, 6, 4, 3, 3] }
        = defaultBoard.ship_to_place :=
  ⟨by decide, (ship_to_place_spec defaultBoard).2 [2, 6, 4, 3, 3] (by decide)⟩

end Battleships
